import Mathlib

/-!
Verification development for the Magnus editor extension: a shallow
embedding of its remote-API client, resource address translator and
tree/filesystem bridge, with theorems settling the specification claims.

Modelling conventions:
* TypeScript strings are Lean `String`s (or `List Char` where the URI
  translator needs character-level reasoning).
* A throwing operation is embedded as `Except`/`Option`-valued.
* External I/O (HTTP responses, local file trees, user prompts) is passed
  in explicitly as data, and the code under verification is its pure
  response to that data.
-/

namespace Magnus

/-! ## Remote API client: error taxonomy and response classification
Embedding of `src/api.ts`.  Each operation checks the HTTP status of the
response and throws one of three errors; `unexpected` carries the raw
status and body that the source logs with `console.error` before
throwing. -/

/-- Errors thrown by the API client in `src/api.ts`.  The string messages in
the source are fixed per constructor: `authFailure` is
"Unable to authorize with the server.", `notFound` is
"Requested resource was not found.", `accessDenied` is
"Server has denied you access to this resource." and `unexpected` is
"Unexpected response received from server." (logged with the raw status
and body). -/
inductive ApiError where
  | authFailure
  | notFound
  | accessDenied
  | unexpected (status : Nat) (loggedBody : Option String)
deriving DecidableEq

/-- An HTTP response as the axios layer presents it to the client code:
a numeric status and an optional body (`none` models a falsy
`result.data`, i.e. an absent or empty body). -/
structure HttpResp (α : Type) where
  status : Nat
  data : Option α
deriving DecidableEq

/-- Classification in `getServerDescriptor` (api.ts lines 230-241): 403,
then 404, then any status outside [200,300) or a falsy body.  `render`
models the `JSON.stringify` coercion used when logging the body. -/
def serverDescriptorRespError (render : α → String) (r : HttpResp α) : Option ApiError :=
  if r.status = 403 then some .accessDenied
  else if r.status = 404 then some .notFound
  else if r.status < 200 ∨ 300 ≤ r.status ∨ r.data.isNone then
    some (.unexpected r.status (r.data.map render))
  else none

/-- Classification in `getChildItems` (api.ts lines 272-283): same shape as
`getServerDescriptor`. -/
def childItemsRespError (render : α → String) (r : HttpResp α) : Option ApiError :=
  if r.status = 403 then some .accessDenied
  else if r.status = 404 then some .notFound
  else if r.status < 200 ∨ 300 ≤ r.status ∨ r.data.isNone then
    some (.unexpected r.status (r.data.map render))
  else none

/-- Classification in `getFileStat` (api.ts lines 317-328): 404, then 403,
then any status outside [200,300); a stat never requires a body. -/
def fileStatRespError (render : α → String) (r : HttpResp α) : Option ApiError :=
  if r.status = 404 then some .notFound
  else if r.status = 403 then some .accessDenied
  else if r.status < 200 ∨ 300 ≤ r.status then
    some (.unexpected r.status (r.data.map render))
  else none

/-- Classification in `getFileContent` (api.ts lines 360-371): 404, then
403, then out-of-range status or falsy body. -/
def fileContentRespError (render : α → String) (r : HttpResp α) : Option ApiError :=
  if r.status = 404 then some .notFound
  else if r.status = 403 then some .accessDenied
  else if r.status < 200 ∨ 300 ≤ r.status ∨ r.data.isNone then
    some (.unexpected r.status (r.data.map render))
  else none

/-- Classification in `updateFileContent` (api.ts lines 397-408): same
shape as `getFileContent`. -/
def updateFileContentRespError (render : α → String) (r : HttpResp α) : Option ApiError :=
  if r.status = 404 then some .notFound
  else if r.status = 403 then some .accessDenied
  else if r.status < 200 ∨ 300 ≤ r.status ∨ r.data.isNone then
    some (.unexpected r.status (r.data.map render))
  else none

/-- Classification in `actionUrl` (api.ts lines 483-494): same shape as
`getFileContent`. -/
def actionRespError (render : α → String) (r : HttpResp α) : Option ApiError :=
  if r.status = 404 then some .notFound
  else if r.status = 403 then some .accessDenied
  else if r.status < 200 ∨ 300 ≤ r.status ∨ r.data.isNone then
    some (.unexpected r.status (r.data.map render))
  else none

/-- The uniform classification stated by the specification: 404 is "not
found", 403 is "access denied", and any other status outside
[200,300) -- or an empty body on an operation that requires one -- is the
generic "unexpected server response" carrying the raw status and body. -/
def uniformRespError (requiresBody : Bool) (render : α → String) (r : HttpResp α) :
    Option ApiError :=
  if r.status = 404 then some .notFound
  else if r.status = 403 then some .accessDenied
  else if (r.status < 200 ∨ 300 ≤ r.status) ∨ (requiresBody ∧ r.data.isNone) then
    some (.unexpected r.status (r.data.map render))
  else none

theorem serverDescriptor_classification_uniform (render : α → String) (r : HttpResp α) :
    serverDescriptorRespError render r = uniformRespError true render r := by
  unfold serverDescriptorRespError uniformRespError
  rcases r with ⟨status, data⟩
  by_cases h4 : status = 404 <;> by_cases h3 : status = 403 <;>
    simp_all <;> split_ifs <;> simp_all <;> omega

theorem childItems_classification_uniform (render : α → String) (r : HttpResp α) :
    childItemsRespError render r = uniformRespError true render r := by
  unfold childItemsRespError uniformRespError
  rcases r with ⟨status, data⟩
  by_cases h4 : status = 404 <;> by_cases h3 : status = 403 <;>
    simp_all <;> split_ifs <;> simp_all <;> omega

theorem fileStat_classification_uniform (render : α → String) (r : HttpResp α) :
    fileStatRespError render r = uniformRespError false render r := by
  unfold fileStatRespError uniformRespError
  rcases r with ⟨status, data⟩
  by_cases h4 : status = 404 <;> by_cases h3 : status = 403 <;>
    simp_all <;> split_ifs <;> simp_all <;> omega

theorem fileContent_classification_uniform (render : α → String) (r : HttpResp α) :
    fileContentRespError render r = uniformRespError true render r := by
  unfold fileContentRespError uniformRespError
  rcases r with ⟨status, data⟩
  by_cases h4 : status = 404 <;> by_cases h3 : status = 403 <;>
    simp_all <;> split_ifs <;> simp_all <;> omega

theorem updateFileContent_classification_uniform (render : α → String) (r : HttpResp α) :
    updateFileContentRespError render r = uniformRespError true render r := by
  unfold updateFileContentRespError uniformRespError
  rcases r with ⟨status, data⟩
  by_cases h4 : status = 404 <;> by_cases h3 : status = 403 <;>
    simp_all <;> split_ifs <;> simp_all <;> omega

theorem action_classification_uniform (render : α → String) (r : HttpResp α) :
    actionRespError render r = uniformRespError true render r := by
  unfold actionRespError uniformRespError
  rcases r with ⟨status, data⟩
  by_cases h4 : status = 404 <;> by_cases h3 : status = 403 <;>
    simp_all <;> split_ifs <;> simp_all <;> omega

/-! ## File stat: `LightFileStat` and `getFileStat`
Embedding of `src/lightFileStat.ts` and of `Api.getFileStat`
(api.ts lines 295-336). -/

/-- The two vscode `FileType` values this system can name. -/
inductive FileType where
  | file
  | directory
deriving DecidableEq

/-- The stat record built by `LightFileStat` (lightFileStat.ts):
`readOnlyPermission` models `permissions === FilePermission.Readonly`. -/
structure LightFileStat where
  type : FileType
  size : Int
  ctime : Nat
  mtime : Nat
  readOnlyPermission : Bool
deriving DecidableEq

/-- One time field of the `LightFileStat` constructor (lightFileStat.ts
lines 34-50): a falsy date string (absent or empty) gives the current
time, otherwise `Date.parse`, with a NaN parse replaced by the current
time.  `dateParse` models the external `Date.parse`, `none` meaning NaN. -/
def timeFromDateString (dateParse : String → Option Nat) (now : Nat) : Option String → Nat
  | none => now
  | some str =>
    if str = "" then now
    else match dateParse str with
      | none => now
      | some t => t

/-- The `LightFileStat` constructor (lightFileStat.ts lines 30-55): always
a plain file, size as given, both times derived from their date strings,
read-only flag mapped to the permission. -/
def mkLightFileStat (dateParse : String → Option Nat) (now : Nat) (fileSize : Int)
    (modifiedDateTime createdDateTime : Option String) (isReadOnly : Bool) : LightFileStat :=
  { type := .file
    size := fileSize
    ctime := timeFromDateString dateParse now createdDateTime
    mtime := timeFromDateString dateParse now modifiedDateTime
    readOnlyPermission := isReadOnly }

/-- Numeric value of a digit run, most significant first. -/
def natOfDigits (l : List Char) : Nat :=
  l.foldl (fun a c => a * 10 + (c.toNat - 48)) 0

/-- JavaScript `parseInt` at radix 10: skip leading spaces, an optional
sign, then the longest run of leading digits; `none` models NaN (no
digits at all). -/
def parseIntJS (s : String) : Option Int :=
  match s.data.dropWhile (fun c => c = ' ') with
  | '-' :: t =>
    if (t.takeWhile Char.isDigit).isEmpty then none
    else some (-(natOfDigits (t.takeWhile Char.isDigit) : Int))
  | '+' :: t =>
    if (t.takeWhile Char.isDigit).isEmpty then none
    else some ((natOfDigits (t.takeWhile Char.isDigit) : Int))
  | t =>
    if (t.takeWhile Char.isDigit).isEmpty then none
    else some ((natOfDigits (t.takeWhile Char.isDigit) : Int))

/-- A response to the stat request with the headers `getFileStat` reads. -/
structure HeadResp where
  status : Nat
  date : Option String
  contentLength : Option String
  xReadonly : Option String
  body : Option String
deriving DecidableEq

/-- The kind of HTTP request `getFileStat` issues. -/
inductive ReqKind where
  | head
  | get
deriving DecidableEq

/-- Requests issued by `getFileStat` (api.ts lines 302-315): always a HEAD
first, and a GET exactly when the HEAD came back 405. -/
def statRequests (headResp : HeadResp) : List ReqKind :=
  if headResp.status = 405 then [.head, .get] else [.head]

/-- The response `getFileStat` ends up reading: the GET response exactly
when the HEAD came back 405 (api.ts lines 308-315). -/
def statFinalResp (headResp getResp : HeadResp) : HeadResp :=
  if headResp.status = 405 then getResp else headResp

/-- The size computed by `getFileStat` (api.ts lines 331-335):
`parseInt` of the content-length header, with a missing header or NaN
parse resolving to 0. -/
def statFileSize (contentLength : Option String) : Int :=
  (match contentLength with
   | none => none
   | some s => parseIntJS s).getD 0

/-- `Api.getFileStat` (api.ts lines 295-336): fails with the auth error
when no cookie can be obtained; issues a HEAD, retrying with a GET on
405; classifies the final status; on success builds a `LightFileStat`
from the content-length, date and x-readonly headers.  Returns the
result together with the list of requests issued. -/
def getFileStat (dateParse : String → Option Nat) (now : Nat) (cookie : Option String)
    (headResp getResp : HeadResp) : Except ApiError LightFileStat × List ReqKind :=
  match cookie with
  | none => (.error .authFailure, [])
  | some _ =>
    match fileStatRespError id { status := (statFinalResp headResp getResp).status,
                                 data := (statFinalResp headResp getResp).body } with
    | some e => (.error e, statRequests headResp)
    | none =>
      (.ok (mkLightFileStat dateParse now
        (statFileSize (statFinalResp headResp getResp).contentLength)
        (statFinalResp headResp getResp).date (statFinalResp headResp getResp).date
        (decide ((statFinalResp headResp getResp).xReadonly = some "true"))),
       statRequests headResp)

theorem fileStatRespError_in_range (render : α → String) (r : HttpResp α)
    (h1 : 200 ≤ r.status) (h2 : r.status < 300) : fileStatRespError render r = none := by
  unfold fileStatRespError
  split_ifs <;> first | rfl | omega

theorem getFileStat_requests (dateParse : String → Option Nat) (now : Nat) (c : String)
    (headResp getResp : HeadResp) :
    (getFileStat dateParse now (some c) headResp getResp).2 = statRequests headResp := by
  unfold getFileStat
  cases fileStatRespError id { status := (statFinalResp headResp getResp).status,
                               data := (statFinalResp headResp getResp).body } <;> rfl

/-- C6: `getFileStat` issues a HEAD request first and, exactly when the
server answers 405, retries with a GET; from the final response it takes
the size from the content-length header -- resolving to 0, not an error,
when that header is missing or unparseable -- takes both dates from the
date header, and takes the read-only status from the x-readonly header
flag. -/
theorem claim_C6_fileStat_head_fallback (dateParse : String → Option Nat) (now : Nat)
    (c : String) (headResp getResp : HeadResp) :
    (headResp.status ≠ 405 →
      (getFileStat dateParse now (some c) headResp getResp).2 = [ReqKind.head]
      ∧ statFinalResp headResp getResp = headResp)
    ∧ (headResp.status = 405 →
      (getFileStat dateParse now (some c) headResp getResp).2 = [ReqKind.head, ReqKind.get]
      ∧ statFinalResp headResp getResp = getResp)
    ∧ (200 ≤ (statFinalResp headResp getResp).status →
       (statFinalResp headResp getResp).status < 300 →
      (getFileStat dateParse now (some c) headResp getResp).1
        = .ok (mkLightFileStat dateParse now
            (statFileSize (statFinalResp headResp getResp).contentLength)
            (statFinalResp headResp getResp).date (statFinalResp headResp getResp).date
            (decide ((statFinalResp headResp getResp).xReadonly = some "true"))))
    ∧ ((statFinalResp headResp getResp).contentLength = none →
        statFileSize (statFinalResp headResp getResp).contentLength = 0)
    ∧ (∀ s, (statFinalResp headResp getResp).contentLength = some s → parseIntJS s = none →
        statFileSize (statFinalResp headResp getResp).contentLength = 0) := by
  refine ⟨?_, ?_, ?_, ?_, ?_⟩
  · intro h
    rw [getFileStat_requests]
    unfold statRequests statFinalResp
    simp [h]
  · intro h
    rw [getFileStat_requests]
    unfold statRequests statFinalResp
    simp [h]
  · intro h1 h2
    unfold getFileStat
    rw [fileStatRespError_in_range _ _ h1 h2]
  · intro h
    unfold statFileSize
    rw [h]
    rfl
  · intro s hs hp
    unfold statFileSize
    rw [hs]
    simp [hp]

theorem claim_C6_fileStat_head_fallback_witness :
    (getFileStat (fun _ => none) 7 (some "c")
        ⟨405, some "d", none, none, none⟩ ⟨200, none, some "abc", some "true", some "x"⟩).2
      = [ReqKind.head, ReqKind.get]
    ∧ (getFileStat (fun _ => none) 7 (some "c")
        ⟨405, some "d", none, none, none⟩ ⟨200, none, some "abc", some "true", some "x"⟩).1
      = .ok (mkLightFileStat (fun _ => none) 7
          (statFileSize (statFinalResp ⟨405, some "d", none, none, none⟩
            ⟨200, none, some "abc", some "true", some "x"⟩).contentLength)
          (statFinalResp ⟨405, some "d", none, none, none⟩
            ⟨200, none, some "abc", some "true", some "x"⟩).date
          (statFinalResp ⟨405, some "d", none, none, none⟩
            ⟨200, none, some "abc", some "true", some "x"⟩).date
          (decide ((statFinalResp ⟨405, some "d", none, none, none⟩
            ⟨200, none, some "abc", some "true", some "x"⟩).xReadonly = some "true"))) := by
  have h := claim_C6_fileStat_head_fallback (fun _ => none) 7 "c"
    ⟨405, some "d", none, none, none⟩ ⟨200, none, some "abc", some "true", some "x"⟩
  exact ⟨(h.2.1 rfl).1, h.2.2.1 (by decide) (by decide)⟩

/-- C10: every successful `getFileStat` result describes a plain file
(never a directory), reports identical creation and modification times
both taken from the date header of the final response, and substitutes
the current time when that header is absent, empty or unparseable; the
call never fails because of a missing or malformed date header. -/
theorem claim_C10_stat_always_plain_file (dateParse : String → Option Nat) (now : Nat)
    (cookie : Option String) (headResp getResp : HeadResp) (stat : LightFileStat)
    (h : (getFileStat dateParse now cookie headResp getResp).1 = .ok stat) :
    stat.type = FileType.file
    ∧ stat.ctime = stat.mtime
    ∧ stat.ctime = timeFromDateString dateParse now (statFinalResp headResp getResp).date
    ∧ ((statFinalResp headResp getResp).date = none → stat.ctime = now)
    ∧ (∀ s, (statFinalResp headResp getResp).date = some s → s ≠ "" → dateParse s = none →
        stat.ctime = now) := by
  cases cookie with
  | none => simp [getFileStat] at h
  | some c =>
    unfold getFileStat at h
    rcases hE : fileStatRespError (α := String) id
        { status := (statFinalResp headResp getResp).status,
          data := (statFinalResp headResp getResp).body } with _ | e
    · rw [hE] at h
      simp only [Except.ok.injEq] at h
      subst h
      refine ⟨rfl, rfl, rfl, ?_, ?_⟩
      · intro hd
        simp [mkLightFileStat, timeFromDateString, hd]
      · intro s hs hne hp
        simp [mkLightFileStat, timeFromDateString, hs, hne, hp]
    · rw [hE] at h
      simp at h

theorem claim_C10_stat_always_plain_file_witness :
    (⟨FileType.file, 0, 5, 5, false⟩ : LightFileStat).type = FileType.file
    ∧ (⟨FileType.file, 0, 5, 5, false⟩ : LightFileStat).ctime
      = (⟨FileType.file, 0, 5, 5, false⟩ : LightFileStat).mtime := by
  have h := claim_C10_stat_always_plain_file (fun _ => none) 5 (some "c")
    ⟨200, none, none, none, none⟩ ⟨0, none, none, none, none⟩
    ⟨FileType.file, 0, 5, 5, false⟩ (by rfl)
  exact ⟨h.1, h.2.1⟩

/-! ## Folder upload: `uploadFolderUrl`
Embedding of `Api.uploadFolderUrl` (api.ts lines 528-571): a sequential
depth-first traversal of a local folder tree that increments a file
count and a cumulative size at every file, throwing as soon as the
count exceeds 10,000 (checked first) or the size exceeds 100,000,000,
and only when the whole traversal succeeded POSTs the collected form
data via `actionUrl` (exactly one network request). -/

mutual

/-- A local filesystem entry as seen by `appendDirectory`'s
`readdir`/`stat` traversal. -/
inductive FsEntry where
  | file (name : String) (size : Nat)
  | dir (name : String) (children : FsEntries)

/-- The ordered children of a local folder. -/
inductive FsEntries where
  | nil
  | cons (hd : FsEntry) (tl : FsEntries)

end

/-- The mutable state of `appendDirectory`: the running `fileCount` and
`totalSize` counters and the form-data entries appended so far (each a
joined relative path and a size). -/
structure UploadSt where
  fileCount : Nat
  totalSize : Nat
  files : List (String × Nat)
deriving DecidableEq

/-- The count-limit error message in api.ts line 545. -/
def countLimitMsg : String := "Cannot upload more than 10,000 files at one time."

/-- The size-limit error message in api.ts line 549. -/
def sizeLimitMsg : String := "Cannot upload more than 100MB at one time."

mutual

/-- One step of `appendDirectory` (api.ts lines 536-560): a file bumps
both counters, then the count guard fires, then the size guard, then the
file is appended to the form data; a directory recurses with its name
pushed onto the relative path. -/
def appendEntry (e : FsEntry) (relativePath : List String) (st : UploadSt) :
    Except String UploadSt :=
  match e with
  | .file name size =>
    if st.fileCount + 1 > 10000 then .error countLimitMsg
    else if st.totalSize + size > 100000000 then .error sizeLimitMsg
    else .ok ⟨st.fileCount + 1, st.totalSize + size,
      st.files ++ [(String.intercalate "/" (relativePath ++ [name]), size)]⟩
  | .dir name children => appendEntries children (relativePath ++ [name]) st

/-- The `for (const childName of childNames)` loop of `appendDirectory`:
children processed left to right, aborting on the first error. -/
def appendEntries (es : FsEntries) (relativePath : List String) (st : UploadSt) :
    Except String UploadSt :=
  match es with
  | .nil => .ok st
  | .cons e tl =>
    match appendEntry e relativePath st with
    | .error msg => .error msg
    | .ok st2 => appendEntries tl relativePath st2

end

/-- `Api.uploadFolderUrl` (api.ts lines 528-571) restricted to its local
behaviour: traverse the folder; on a guard error propagate it having
issued zero network requests, otherwise POST the form data (one network
request).  The second component counts the network requests issued. -/
def uploadFolderUrl (root : FsEntries) : Except String UploadSt × Nat :=
  match appendEntries root [] ⟨0, 0, []⟩ with
  | .error msg => (.error msg, 0)
  | .ok st => (.ok st, 1)

mutual

/-- Number of plain files in an entry. -/
def entryFileCount : FsEntry → Nat
  | .file _ _ => 1
  | .dir _ children => entriesFileCount children

/-- Number of plain files in a list of entries. -/
def entriesFileCount : FsEntries → Nat
  | .nil => 0
  | .cons e tl => entryFileCount e + entriesFileCount tl

end

mutual

/-- Total byte size of the plain files in an entry. -/
def entryTotalSize : FsEntry → Nat
  | .file _ size => size
  | .dir _ children => entriesTotalSize children

/-- Total byte size of the plain files in a list of entries. -/
def entriesTotalSize : FsEntries → Nat
  | .nil => 0
  | .cons e tl => entryTotalSize e + entriesTotalSize tl

end

mutual

theorem appendEntry_ok_counts (e : FsEntry) (rel : List String) (st st' : UploadSt)
    (h : appendEntry e rel st = .ok st') :
    st'.fileCount = st.fileCount + entryFileCount e
    ∧ st'.totalSize = st.totalSize + entryTotalSize e
    ∧ st'.fileCount ≤ max st.fileCount 10000
    ∧ st'.totalSize ≤ max st.totalSize 100000000 := by
  cases e with
  | file name size =>
    unfold appendEntry at h
    split_ifs at h with h1 h2
    simp only [Except.ok.injEq] at h
    subst h
    refine ⟨rfl, rfl, ?_, ?_⟩ <;> simp [entryFileCount, entryTotalSize] <;> omega
  | dir name children =>
    unfold appendEntry at h
    have := appendEntries_ok_counts children (rel ++ [name]) st st' h
    simpa [entryFileCount, entryTotalSize] using this

theorem appendEntries_ok_counts (es : FsEntries) (rel : List String) (st st' : UploadSt)
    (h : appendEntries es rel st = .ok st') :
    st'.fileCount = st.fileCount + entriesFileCount es
    ∧ st'.totalSize = st.totalSize + entriesTotalSize es
    ∧ st'.fileCount ≤ max st.fileCount 10000
    ∧ st'.totalSize ≤ max st.totalSize 100000000 := by
  cases es with
  | nil =>
    unfold appendEntries at h
    simp only [Except.ok.injEq] at h
    subst h
    refine ⟨by simp [entriesFileCount], by simp [entriesTotalSize], ?_, ?_⟩ <;> omega
  | cons e tl =>
    unfold appendEntries at h
    rcases h2 : appendEntry e rel st with msg | st2
    · rw [h2] at h
      exact absurd h (by simp)
    · rw [h2] at h
      have i1 := appendEntry_ok_counts e rel st st2 h2
      have i2 := appendEntries_ok_counts tl rel st2 st' h
      refine ⟨?_, ?_, ?_, ?_⟩
      · simp only [entriesFileCount]
        omega
      · simp only [entriesTotalSize]
        omega
      · omega
      · omega

end

/-- A flat folder of `n` one-byte files. -/
def replicateFiles : Nat → FsEntries
  | 0 => .nil
  | n + 1 => .cons (.file "f" 1) (replicateFiles n)

theorem entriesFileCount_replicateFiles (n : Nat) :
    entriesFileCount (replicateFiles n) = n := by
  induction n with
  | zero => rfl
  | succ n ih => simp [replicateFiles, entriesFileCount, entryFileCount, ih]; omega

theorem appendEntries_replicate_count_error (n c : Nat) (fs : List (String × Nat))
    (rel : List String) (hc : c ≤ 10000) (hn : 10001 ≤ c + n) :
    appendEntries (replicateFiles n) rel ⟨c, c, fs⟩ = .error countLimitMsg := by
  induction n generalizing c fs with
  | zero => omega
  | succ n ih =>
    by_cases h : c = 10000
    · subst h
      rfl
    · simp only [replicateFiles, appendEntries, appendEntry]
      rw [if_neg (by omega), if_neg (by omega)]
      exact ih (c + 1) _ (by omega) (by omega)

/-- C2: `uploadFolderUrl` enforces its two local guards before any
network request: whenever the folder holds more than 10,000 files or
more than 100,000,000 bytes, the depth-first traversal aborts with a
guard error and zero network requests are issued; a folder of 10,001
one-byte files fails with the count-limit error, and a folder of two
files totalling 100,000,001 bytes fails with the size-limit error. -/
theorem claim_C2_upload_folder_guards :
    (∀ root, 10000 < entriesFileCount root → ∃ msg, uploadFolderUrl root = (.error msg, 0))
    ∧ (∀ root, 100000000 < entriesTotalSize root →
        ∃ msg, uploadFolderUrl root = (.error msg, 0))
    ∧ uploadFolderUrl (replicateFiles 10001) = (.error countLimitMsg, 0)
    ∧ uploadFolderUrl (.cons (.file "a" 100000000) (.cons (.file "b" 1) .nil))
      = (.error sizeLimitMsg, 0) := by
  refine ⟨?_, ?_, ?_, ?_⟩
  · intro root hroot
    unfold uploadFolderUrl
    rcases h : appendEntries root [] ⟨0, 0, []⟩ with msg | st
    · exact ⟨msg, rfl⟩
    · obtain ⟨hc, hs, hbc, hbs⟩ := appendEntries_ok_counts root [] ⟨0, 0, []⟩ st h
      simp only [show ({ fileCount := 0, totalSize := 0, files := [] } : UploadSt).fileCount
          = 0 from rfl] at hc hbc
      omega
  · intro root hroot
    unfold uploadFolderUrl
    rcases h : appendEntries root [] ⟨0, 0, []⟩ with msg | st
    · exact ⟨msg, rfl⟩
    · obtain ⟨hc, hs, hbc, hbs⟩ := appendEntries_ok_counts root [] ⟨0, 0, []⟩ st h
      simp only [show ({ fileCount := 0, totalSize := 0, files := [] } : UploadSt).totalSize
          = 0 from rfl] at hs hbs
      omega
  · unfold uploadFolderUrl
    rw [appendEntries_replicate_count_error 10001 0 [] [] (by omega) (by omega)]
  · rfl

theorem claim_C2_upload_folder_guards_witness :
    (∃ msg, uploadFolderUrl (replicateFiles 10001) = (.error msg, 0))
    ∧ (∃ msg, uploadFolderUrl (.cons (.file "a" 100000000) (.cons (.file "b" 1) .nil))
        = (.error msg, 0)) :=
  ⟨claim_C2_upload_folder_guards.1 (replicateFiles 10001)
      (by rw [entriesFileCount_replicateFiles]; omega),
   claim_C2_upload_folder_guards.2.1 (.cons (.file "a" 100000000) (.cons (.file "b" 1) .nil))
      (by decide)⟩

/-! ## Tree provider: action dispatch and URL qualification
Embedding of parts of `src/magnusTreeDataProvider.ts` and of the
`Commands` class (`addServer` / `removeServer`). -/

/-- JavaScript truthiness test failure for an optional string: `undefined`
and the empty string are falsy. -/
def jsFalsyStr : Option String → Bool
  | none => true
  | some s => s = ""

/-- JavaScript `a || b` for an optional string `a` and a default `b`:
yields the default when `a` is absent or empty. -/
def jsOrDefault (a : Option String) (b : String) : String :=
  match a with
  | none => b
  | some s => if s = "" then b else s

/-- Whether the string contains the absolute scheme separator
(`url.includes("://")`). -/
def hasSchemeSep : List Char → Bool
  | [] => false
  | ':' :: '/' :: '/' :: _ => true
  | _ :: t => hasSchemeSep t

/-- JavaScript rendering of the unapplied `String.prototype.substring`
method reference.  `getFullyQualifiedUrl` interpolates `${url.substring}`
without calling the method, so the template literal stringifies the
built-in function itself. -/
def substringMethodSource : String := "function substring() \x7b [native code] \x7d"

/-- Character-level form of `url.startsWith("/")`. -/
def startsWithSlash : List Char → Bool
  | '/' :: _ => true
  | _ => false

/-- `getFullyQualifiedUrl` (magnusTreeDataProvider.ts lines 355-366)
exactly as written: a URL with a scheme separator passes through; a
relative URL starting with "/" is appended to the server URL; a relative
URL not starting with "/" hits the `${serverUrl}/${url.substring}`
template literal, which interpolates the uncalled method reference. -/
def getFullyQualifiedUrl (serverUrl url : String) : String :=
  if hasSchemeSep url.data then url
  else if !startsWithSlash url.data then serverUrl ++ "/" ++ substringMethodSource
  else serverUrl ++ url

/-- The item descriptor fields consulted by the action handlers
(types/global.d.ts). -/
structure ItemDescriptor where
  displayName : String
  uri : Option String
  isFolder : Bool
  buildUri : Option String
  deleteUri : Option String
  newFileUri : Option String
  newFolderUri : Option String
  uploadFileUri : Option String
  uploadFolderUri : Option String
deriving DecidableEq

/-- An `ITreeNode` (types/global.d.ts): `resourceKey` is the string form
of the node's virtual resource URI, the key used by the
`treeNodeTable`/`parentItemLookup` tables. -/
structure TreeNode where
  serverUrl : String
  resourceKey : String
  itemDescriptor : ItemDescriptor
  isServer : Bool
deriving DecidableEq

/-- The response of a generic action request.  The field names follow the
server contract consumed by `actionUrl` (`responseMessage`,
`isAsynchronous`, `actionSuccessful`); the declaration of this type is
not under src, only its uses. -/
structure ActionResponse where
  responseMessage : Option String
  isAsynchronous : Bool
  actionSuccessful : Bool
deriving DecidableEq

/-- The externally observable effects of one run of an action handler:
the resolved URL it requested (none when the capability URI was absent
and the handler returned early), the progress message reported, the
error message shown, and the resource key of the parent node refreshed
through `didChangeTreeData` (none when no refresh was fired). -/
structure ActionEffects where
  requestedUrl : Option String
  progressMessage : Option String
  errorMessage : Option String
  refreshedParent : Option String
deriving DecidableEq

/-- `onBuildUrl` (magnusTreeDataProvider.ts lines 394-432), given the
server's response: returns early when `buildUri` is falsy; otherwise
resolves the URL, POSTs it, and reports `responseMessage` (or a
fallback).  Unlike the other action handlers this one contains no
`parentItemLookup` consultation and fires no tree-data change, so the
lookup table argument is unused and `refreshedParent` is always none. -/
def onBuildUrl (item : TreeNode) (response : ActionResponse)
    (_parentItemLookup : List (String × String)) : ActionEffects :=
  if jsFalsyStr item.itemDescriptor.buildUri then ⟨none, none, none, none⟩
  else
    let url := getFullyQualifiedUrl item.serverUrl (item.itemDescriptor.buildUri.getD "")
    if response.actionSuccessful then
      ⟨some url, some (jsOrDefault response.responseMessage "Complete"), none, none⟩
    else
      ⟨some url, some "Complete", some (jsOrDefault response.responseMessage "Build failed."),
        none⟩

/-- A node used by the C3 scenario: a buildable folder whose parent is
present in the parent-lookup table. -/
def buildNodeC3 : TreeNode :=
  { serverUrl := "https://example.org"
    resourceKey := "ttmagnuss://example.org/themes/1"
    itemDescriptor :=
      { displayName := "Theme 1"
        uri := some "/themes/1"
        isFolder := true
        buildUri := some "/api/TriumphTech/Magnus/Build/1"
        deleteUri := none
        newFileUri := none
        newFolderUri := none
        uploadFileUri := none
        uploadFolderUri := none }
    isServer := false }

/-- C3 counterexample: for a build action answering
`actionSuccessful: false, responseMessage: "disk full"`, the handler does
show "disk full", but even with the node's parent present in the
parent-lookup table it fires no refresh at all
(`refreshedParent = none`), contradicting the claim that the parent is
still refreshed on completion. -/
theorem claim_C3_counterexample :
    (onBuildUrl buildNodeC3 ⟨some "disk full", false, false⟩
        [("ttmagnuss://example.org/themes/1", "ttmagnuss://example.org")]).errorMessage
      = some "disk full"
    ∧ (onBuildUrl buildNodeC3 ⟨some "disk full", false, false⟩
        [("ttmagnuss://example.org/themes/1", "ttmagnuss://example.org")]).refreshedParent
      = none := by
  constructor <;> rfl

/-- C3 (amended): a build action whose server response is
`actionSuccessful: false, responseMessage: "disk full"` reports
"disk full" to the person as the visible outcome, but the build handler
-- alone among the action handlers -- never consults the parent-lookup
table and triggers no refresh of the node's parent. -/
theorem claim_C3_build_reports_failure_without_refresh (item : TreeNode)
    (response : ActionResponse) (lookup : List (String × String))
    (hUri : jsFalsyStr item.itemDescriptor.buildUri = false)
    (hFail : response.actionSuccessful = false)
    (hMsg : response.responseMessage = some "disk full") :
    (onBuildUrl item response lookup).errorMessage = some "disk full"
    ∧ (onBuildUrl item response lookup).refreshedParent = none := by
  unfold onBuildUrl
  rw [hUri]
  simp [hFail, hMsg, jsOrDefault]

theorem claim_C3_build_reports_failure_without_refresh_witness :
    (onBuildUrl buildNodeC3 ⟨some "disk full", true, false⟩ []).errorMessage = some "disk full"
    ∧ (onBuildUrl buildNodeC3 ⟨some "disk full", true, false⟩ []).refreshedParent = none :=
  claim_C3_build_reports_failure_without_refresh buildNodeC3 ⟨some "disk full", true, false⟩ []
    (by rfl) (by rfl) (by rfl)

/-- C9 (code bug): `getFullyQualifiedUrl` on a capability URL lacking a
scheme separator and not starting with "/" does not join the server base
URL with the capability path: the `${serverUrl}/${url.substring}`
template literal (the method is never called) yields the server URL
followed by the stringified built-in method, independent of the path.
The "/"-prefixed and absolute cases behave as claimed. -/
theorem claim_C9_fully_qualified_url_drops_relative_path :
    getFullyQualifiedUrl "https://example.org" "api/build/5"
      = "https://example.org/" ++ substringMethodSource
    ∧ getFullyQualifiedUrl "https://example.org" "api/build/5"
      ≠ "https://example.org/api/build/5"
    ∧ getFullyQualifiedUrl "https://example.org" "api/build/5"
      = getFullyQualifiedUrl "https://example.org" "completely/different"
    ∧ getFullyQualifiedUrl "https://example.org" "/api/build/5"
      = "https://example.org/api/build/5"
    ∧ getFullyQualifiedUrl "https://example.org" "http://other.example/x"
      = "http://other.example/x" := by
  refine ⟨rfl, by decide, rfl, rfl, rfl⟩

/-- The state owned by the command layer: the known-servers list
(globalState "KnownServers"), the credential store (secrets keyed by
server URL) and the module-level `authenticationCookies` cache of
api.ts. -/
structure ServerState where
  knownServers : List String
  credentials : List (String × String × String)
  tokenCache : List (String × String)
deriving DecidableEq

/-- Replace-or-append for an association list keyed by a string. -/
def setAssoc (l : List (String × α)) (k : String) (v : α) : List (String × α) :=
  match l with
  | [] => [(k, v)]
  | (k0, v0) :: t => if k0 = k then (k, v) :: t else (k0, v0) :: setAssoc t k v

/-- Truthiness of the unawaited Promise in the guard
`if (!api.login(serverUrl, username, password))` (Commands.addServer,
part_004 line 180): `api.login` is async, the Promise object it returns
is always truthy whatever boolean it later resolves to, so the negation
is always false. -/
def promiseFalsy (_resolvedValue : Bool) : Bool := false

/-- `Commands.addServer` (part_004 lines 147-190): collects URL, user
name and password (abort on a falsy answer), rejects a duplicate URL,
then runs the dead login guard, saves the credentials, appends the URL
to the known-servers list, and (through the unawaited `api.login`)
caches the cookie exactly when the login eventually succeeds.  Returns
the new state and the message shown, if any. -/
def addServer (st : ServerState) (serverUrl username password : Option String)
    (loginSucceeds : Bool) (cookie : String) : ServerState × Option String :=
  if jsFalsyStr serverUrl then (st, none)
  else if jsFalsyStr username then (st, none)
  else if jsFalsyStr password then (st, none)
  else
    let u := serverUrl.getD ""
    if u ∈ st.knownServers then (st, some "Server already exists.")
    else if promiseFalsy loginSucceeds then
      (st, some "Unable to login. Please check server URL and credentials and try again.")
    else
      ({ knownServers := st.knownServers ++ [u]
         credentials := setAssoc st.credentials u (username.getD "", password.getD "")
         tokenCache := if loginSucceeds then setAssoc st.tokenCache u cookie
                       else st.tokenCache }, none)

/-- C7 (code bug): because the login guard tests an unawaited Promise,
`addServer` persists the server URL and the credentials even when the
login resolves to failure, and the "Unable to login" message is never
shown; the duplicate guard itself does hold. -/
theorem claim_C7_addServer_persists_despite_failed_login :
    addServer ⟨[], [], []⟩ (some "https://bad.example") (some "admin") (some "pw") false "c"
      = (⟨["https://bad.example"], [("https://bad.example", ("admin", "pw"))], []⟩, none)
    ∧ (addServer ⟨["https://a.example"], [], []⟩ (some "https://a.example")
        (some "u") (some "p") true "c")
      = (⟨["https://a.example"], [], []⟩, some "Server already exists.") := by
  constructor <;> rfl

/-- `Commands.removeServer` (part_004 lines 206-228): a confirmation
other than "Yes" aborts; a URL absent from the known-servers list aborts
before deleting credentials; otherwise the URL is spliced out of the
list and its credentials are deleted.  Nothing ever touches the
`authenticationCookies` cache. -/
def removeServer (st : ServerState) (serverUrl : String) (confirmation : Option String) :
    ServerState :=
  if confirmation ≠ some "Yes" then st
  else if serverUrl ∈ st.knownServers then
    { knownServers := st.knownServers.erase serverUrl
      credentials := st.credentials.filter (fun c => !(c.1 == serverUrl))
      tokenCache := st.tokenCache }
  else st

/-- C8 counterexample: a confirmed removal of a server with a cached
session token removes the URL from the list and deletes its credentials,
but the cached token is still present afterwards, contradicting the
claim that the cached session is invalidated. -/
theorem claim_C8_counterexample :
    (removeServer ⟨["https://a.example"], [("https://a.example", ("u", "p"))],
        [("https://a.example", "tok")]⟩ "https://a.example" (some "Yes"))
      = ⟨[], [], [("https://a.example", "tok")]⟩ := by
  rfl

/-- C8 (amended): for every remove-server action the person confirms on
a URL present in the known-servers list, the URL is removed from the
list and its credentials are deleted from the credential store, but the
per-server token cache is left untouched: any cached session token for
that URL survives. -/
theorem claim_C8_removeServer_keeps_token_cache (st : ServerState) (serverUrl : String)
    (h : serverUrl ∈ st.knownServers) :
    (removeServer st serverUrl (some "Yes")).knownServers = st.knownServers.erase serverUrl
    ∧ (removeServer st serverUrl (some "Yes")).credentials
      = st.credentials.filter (fun c => !(c.1 == serverUrl))
    ∧ (removeServer st serverUrl (some "Yes")).tokenCache = st.tokenCache := by
  unfold removeServer
  simp [h]

theorem claim_C8_removeServer_keeps_token_cache_witness :
    (removeServer ⟨["https://a.example"], [], [("https://a.example", "tok")]⟩
        "https://a.example" (some "Yes")).tokenCache = [("https://a.example", "tok")] :=
  (claim_C8_removeServer_keeps_token_cache
    ⟨["https://a.example"], [], [("https://a.example", "tok")]⟩ "https://a.example"
    (by decide)).2.2

/-! ## JSON key-casing normalization
Embedding of `toCamelCaseReviver`/`jsonParse` (api.ts lines 40-64).
`JSON.parse` with this reviver rewrites, bottom-up in every object, each
key that starts with an ASCII uppercase letter: the value is re-assigned
under the key with its first character lowercased (replacing in place a
key that already exists, appending otherwise) and the original key is
deleted.  Arrays are `typeof "object"` too, but their index keys never
match `/^[A-Z]/`, so they are only traversed. -/

mutual

/-- A parsed JSON value. -/
inductive Json where
  | null
  | bool (b : Bool)
  | num (n : Int)
  | str (s : String)
  | arr (items : JsonArr)
  | obj (fields : JsonObj)

/-- The elements of a JSON array, in order. -/
inductive JsonArr where
  | nil
  | cons (hd : Json) (tl : JsonArr)

/-- The fields of a JSON object, in property order. -/
inductive JsonObj where
  | nil
  | cons (key : String) (val : Json) (tl : JsonObj)

end

/-- Property-existence test (`Object.hasOwnProperty`). -/
def JsonObj.hasKey : JsonObj → String → Bool
  | .nil, _ => false
  | .cons k _ t, key => if k = key then true else t.hasKey key

/-- Property read (`valueObject[valueKey]`). -/
def JsonObj.lookupKey : JsonObj → String → Option Json
  | .nil, _ => none
  | .cons k v t, key => if k = key then some v else t.lookupKey key

/-- Property write (`valueObject[newKey] = value`): an existing key keeps
its position and gets the new value; a fresh key is appended at the
end. -/
def JsonObj.setKey : JsonObj → String → Json → JsonObj
  | .nil, key, v => .cons key v .nil
  | .cons k v0 t, key, v => if k = key then .cons k v t else .cons k v0 (t.setKey key v)

/-- Property deletion (`delete valueObject[valueKey]`). -/
def JsonObj.delKey : JsonObj → String → JsonObj
  | .nil, _ => .nil
  | .cons k v t, key => if k = key then t.delKey key else .cons k v (t.delKey key)

/-- The property names of an object, in order (`for..in` enumeration). -/
def JsonObj.keys : JsonObj → List String
  | .nil => []
  | .cons k _ t => k :: t.keys

/-- The `/^[A-Z]/` test of the reviver. -/
def startsUpper (s : String) : Bool :=
  match s.data with
  | [] => false
  | c :: _ => decide ('A' ≤ c ∧ c ≤ 'Z')

/-- `valueKey.charAt(0).toLocaleLowerCase() + valueKey.substring(1)`
for the ASCII keys the reviver's regex selects. -/
def lowerFirst (s : String) : String :=
  match s.data with
  | [] => s
  | c :: t => ⟨Char.toLower c :: t⟩

/-- The key an input key ends up under after normalization. -/
def camelKey (k : String) : String :=
  if startsUpper k then lowerFirst k else k

/-- One iteration of the reviver's `for..in` loop body at key `k`: when
`k` matches `/^[A-Z]/` and is still present, its value is re-assigned
under the lowercased key and `k` is deleted; otherwise nothing
happens. -/
def camelStep (o : JsonObj) (k : String) : JsonObj :=
  if startsUpper k && o.hasKey k then
    match o.lookupKey k with
    | some v => (o.setKey (lowerFirst k) v).delKey k
    | none => o
  else o

/-- The whole reviver loop over one object: the keys are enumerated from
the object as the loop starts, and each iteration re-checks presence. -/
def camelizeObj (o : JsonObj) : JsonObj :=
  o.keys.foldl camelStep o

mutual

/-- The full `jsonParse` normalization: the reviver runs bottom-up, so
children are normalized first and then the object's own keys are
camel-cased. -/
def normalize : Json → Json
  | .null => .null
  | .bool b => .bool b
  | .num n => .num n
  | .str s => .str s
  | .arr a => .arr (normalizeArr a)
  | .obj o => .obj (camelizeObj (normalizeObj o))

/-- Normalization of every array element. -/
def normalizeArr : JsonArr → JsonArr
  | .nil => .nil
  | .cons h t => .cons (normalize h) (normalizeArr t)

/-- Normalization of every field value of an object (the keys are
handled afterwards by `camelizeObj`). -/
def normalizeObj : JsonObj → JsonObj
  | .nil => .nil
  | .cons k v t => .cons k (normalize v) (normalizeObj t)

end

/-- Number of elements of a JSON array. -/
def arrLength : JsonArr → Nat
  | .nil => 0
  | .cons _ t => arrLength t + 1

theorem char_toNat_ofNat_valid (m : Nat) (h : m < 55296) : (Char.ofNat m).toNat = m := by
  unfold Char.ofNat
  rw [dif_pos (Or.inl h)]
  rfl

theorem toLower_toNat_of_upper (c : Char) (h1 : 65 ≤ c.toNat) (h2 : c.toNat ≤ 90) :
    (Char.toLower c).toNat = c.toNat + 32 := by
  simp only [Char.toLower]
  rw [if_pos ⟨h1, h2⟩]
  exact char_toNat_ofNat_valid _ (by omega)

theorem startsUpper_lowerFirst (k : String) (h : startsUpper k = true) :
    startsUpper (lowerFirst k) = false := by
  unfold startsUpper at h
  unfold lowerFirst startsUpper
  rcases hd : k.data with _ | ⟨c, t⟩
  · rw [hd] at h
    exact absurd h (by simp)
  · rw [hd] at h
    have hc : 'A' ≤ c ∧ c ≤ 'Z' := of_decide_eq_true h
    have h1 : 65 ≤ c.toNat := hc.1
    have h2 : c.toNat ≤ 90 := hc.2
    have h3 := toLower_toNat_of_upper c h1 h2
    simp only []
    apply decide_eq_false
    intro ⟨ha, hz⟩
    have hz' : (Char.toLower c).toNat ≤ 90 := hz
    omega

theorem startsUpper_camelKey (k : String) : startsUpper (camelKey k) = false := by
  unfold camelKey
  rcases h : startsUpper k with _ | _
  · simp [h]
  · simp [startsUpper_lowerFirst k h]

namespace JsonObj

theorem mem_keys_setKey : (o : JsonObj) → ∀ (key k : String) (v : Json),
    k ∈ (o.setKey key v).keys ↔ k ∈ o.keys ∨ k = key
  | .nil => by
    intro key k v
    simp [setKey, keys]
  | .cons k0 v0 t => by
    intro key k v
    have ih := mem_keys_setKey t key k v
    simp only [setKey]
    split_ifs with h
    · subst h
      simp only [keys, List.mem_cons]
      tauto
    · simp only [keys, List.mem_cons, ih]
      tauto

theorem mem_keys_delKey : (o : JsonObj) → ∀ (key k : String),
    k ∈ (o.delKey key).keys ↔ k ∈ o.keys ∧ k ≠ key
  | .nil => by
    intro key k
    simp [delKey, keys]
  | .cons k0 v0 t => by
    intro key k
    have ih := mem_keys_delKey t key k
    simp only [delKey]
    split_ifs with h
    · subst h
      simp only [keys, List.mem_cons, ih]
      constructor
      · rintro ⟨hm, hne⟩
        exact ⟨Or.inr hm, hne⟩
      · rintro ⟨hm | hm, hne⟩
        · exact absurd hm hne
        · exact ⟨hm, hne⟩
    · simp only [keys, List.mem_cons, ih]
      constructor
      · rintro (rfl | ⟨hm, hne⟩)
        · exact ⟨Or.inl rfl, h⟩
        · exact ⟨Or.inr hm, hne⟩
      · rintro ⟨rfl | hm, hne⟩
        · exact Or.inl rfl
        · exact Or.inr ⟨hm, hne⟩

theorem hasKey_iff_mem_keys : (o : JsonObj) → ∀ (key : String),
    o.hasKey key = true ↔ key ∈ o.keys
  | .nil => by
    intro key
    simp [hasKey, keys]
  | .cons k0 v0 t => by
    intro key
    have ih := hasKey_iff_mem_keys t key
    simp only [hasKey]
    split_ifs with h
    · subst h
      simp [keys]
    · simp only [keys, List.mem_cons, ih]
      constructor
      · exact Or.inr
      · rintro (rfl | hm)
        · exact absurd rfl h
        · exact hm

theorem lookup_some_of_hasKey : (o : JsonObj) → ∀ (key : String),
    o.hasKey key = true → ∃ v, o.lookupKey key = some v
  | .nil => by
    intro key h
    simp [hasKey] at h
  | .cons k0 v0 t => by
    intro key h
    simp only [hasKey] at h
    by_cases h0 : k0 = key
    · exact ⟨v0, by simp only [lookupKey]; rw [if_pos h0]⟩
    · rw [if_neg h0] at h
      obtain ⟨v, hv⟩ := lookup_some_of_hasKey t key h
      exact ⟨v, by simp only [lookupKey]; rw [if_neg h0]; exact hv⟩

theorem hasKey_of_lookup_some : (o : JsonObj) → ∀ (key : String) (v : Json),
    o.lookupKey key = some v → o.hasKey key = true
  | .nil => by
    intro key v h
    simp [lookupKey] at h
  | .cons k0 v0 t => by
    intro key v h
    simp only [lookupKey] at h
    simp only [hasKey]
    by_cases h0 : k0 = key
    · rw [if_pos h0]
    · rw [if_neg h0] at h
      rw [if_neg h0]
      exact hasKey_of_lookup_some t key v h

end JsonObj

theorem camelStep_inactive (o : JsonObj) (k : String)
    (h : (startsUpper k && o.hasKey k) = false) : camelStep o k = o := by
  unfold camelStep
  rw [h]
  rfl

theorem camelStep_not_upper (o : JsonObj) (k : String) (h : startsUpper k = false) :
    camelStep o k = o :=
  camelStep_inactive o k (by rw [h]; rfl)

theorem camelStep_active (o : JsonObj) (k : String) (v : Json)
    (hu : startsUpper k = true) (hv : o.lookupKey k = some v) :
    camelStep o k = (o.setKey (lowerFirst k) v).delKey k := by
  unfold camelStep
  rw [hu, JsonObj.hasKey_of_lookup_some o k v hv, hv]
  simp

theorem mem_keys_camelStep_of_lower (o : JsonObj) (k k' : String)
    (hu : startsUpper k' = false) (hk : k' ∈ o.keys) : k' ∈ (camelStep o k).keys := by
  by_cases hcond : (startsUpper k && o.hasKey k) = true
  · rw [Bool.and_eq_true] at hcond
    obtain ⟨hu0, hh0⟩ := hcond
    obtain ⟨v, hv⟩ := JsonObj.lookup_some_of_hasKey o k hh0
    rw [camelStep_active o k v hu0 hv]
    refine (JsonObj.mem_keys_delKey _ k k').mpr
      ⟨(JsonObj.mem_keys_setKey o (lowerFirst k) k' v).mpr (Or.inl hk), ?_⟩
    intro hEq
    rw [hEq] at hu
    rw [hu] at hu0
    exact Bool.noConfusion hu0
  · have hcf : (startsUpper k && o.hasKey k) = false := by
      revert hcond
      cases (startsUpper k && JsonObj.hasKey o k) <;> simp
    rw [camelStep_inactive o k hcf]
    exact hk

theorem foldl_camelStep_no_upper : ∀ (ks : List String) (o : JsonObj),
    (∀ k ∈ o.keys, startsUpper k = true → k ∈ ks) →
    ∀ k ∈ (ks.foldl camelStep o).keys, startsUpper k = false := by
  intro ks
  induction ks with
  | nil =>
    intro o hinv k hk
    cases hu : startsUpper k
    · rfl
    · exact absurd (hinv k hk hu) (List.not_mem_nil k)
  | cons k0 ks ih =>
    intro o hinv k hk
    rw [List.foldl_cons] at hk
    refine ih (camelStep o k0) ?_ k hk
    intro k' hk' hu'
    by_cases hcond : (startsUpper k0 && o.hasKey k0) = true
    · have hcond' := hcond
      rw [Bool.and_eq_true] at hcond'
      obtain ⟨hu0, hh0⟩ := hcond'
      obtain ⟨v, hv⟩ := JsonObj.lookup_some_of_hasKey o k0 hh0
      rw [camelStep_active o k0 v hu0 hv] at hk'
      obtain ⟨hsk, hne⟩ := (JsonObj.mem_keys_delKey _ k0 k').mp hk'
      rcases (JsonObj.mem_keys_setKey o (lowerFirst k0) k' v).mp hsk with hmem | rfl
      · rcases List.mem_cons.mp (hinv k' hmem hu') with rfl | hks
        · exact absurd rfl hne
        · exact hks
      · rw [startsUpper_lowerFirst k0 hu0] at hu'
        exact Bool.noConfusion hu'
    · have hcf : (startsUpper k0 && o.hasKey k0) = false := by
        revert hcond
        cases (startsUpper k0 && JsonObj.hasKey o k0) <;> simp
      rw [camelStep_inactive o k0 hcf] at hk'
      rcases List.mem_cons.mp (hinv k' hk' hu') with rfl | hks
      · have hT : (startsUpper k' && o.hasKey k') = true := by
          rw [hu', (JsonObj.hasKey_iff_mem_keys o k').mpr hk']
          rfl
        simp [hT] at hcf
      · exact hks

theorem camelizeObj_no_upper (o : JsonObj) :
    ∀ k ∈ (camelizeObj o).keys, startsUpper k = false :=
  foldl_camelStep_no_upper o.keys o (fun k hk _ => hk)

theorem foldl_camelStep_id : ∀ (ks : List String) (o : JsonObj),
    (∀ k ∈ ks, startsUpper k = false) → ks.foldl camelStep o = o := by
  intro ks
  induction ks with
  | nil => intro o _; rfl
  | cons k0 ks ih =>
    intro o h
    rw [List.foldl_cons, camelStep_not_upper o k0 (h k0 (List.mem_cons_self k0 ks))]
    exact ih o (fun k hk => h k (List.mem_cons_of_mem k0 hk))

theorem camelizeObj_id_of_no_upper (o : JsonObj)
    (h : ∀ k ∈ o.keys, startsUpper k = false) : camelizeObj o = o :=
  foldl_camelStep_id o.keys o h

theorem camelizeObj_idem (o : JsonObj) : camelizeObj (camelizeObj o) = camelizeObj o :=
  camelizeObj_id_of_no_upper _ (camelizeObj_no_upper o)

theorem keys_normalizeObj : (o : JsonObj) → (normalizeObj o).keys = o.keys
  | .nil => rfl
  | .cons k v t => by
    simp only [normalizeObj, JsonObj.keys]
    rw [keys_normalizeObj t]

theorem lookupKey_normalizeObj : (o : JsonObj) → ∀ (key : String),
    (normalizeObj o).lookupKey key = (o.lookupKey key).map normalize
  | .nil => by
    intro key
    rfl
  | .cons k v t => by
    intro key
    simp only [normalizeObj, JsonObj.lookupKey]
    split_ifs with h
    · rfl
    · exact lookupKey_normalizeObj t key

theorem hasKey_normalizeObj : (o : JsonObj) → ∀ (key : String),
    (normalizeObj o).hasKey key = o.hasKey key
  | .nil => by
    intro key
    rfl
  | .cons k v t => by
    intro key
    simp only [normalizeObj, JsonObj.hasKey]
    split_ifs with h
    · rfl
    · exact hasKey_normalizeObj t key

theorem setKey_normalizeObj : (o : JsonObj) → ∀ (key : String) (v : Json),
    normalizeObj (o.setKey key v) = (normalizeObj o).setKey key (normalize v)
  | .nil => by
    intro key v
    simp only [JsonObj.setKey, normalizeObj]
  | .cons k0 v0 t => by
    intro key v
    simp only [JsonObj.setKey, normalizeObj]
    split_ifs with h
    · simp only [normalizeObj]
    · simp only [normalizeObj]
      rw [setKey_normalizeObj t]

theorem delKey_normalizeObj : (o : JsonObj) → ∀ (key : String),
    normalizeObj (o.delKey key) = (normalizeObj o).delKey key
  | .nil => by
    intro key
    rfl
  | .cons k0 v0 t => by
    intro key
    simp only [JsonObj.delKey, normalizeObj]
    split_ifs with h
    · exact delKey_normalizeObj t key
    · simp only [normalizeObj]
      rw [delKey_normalizeObj t]

theorem camelStep_normalizeObj (o : JsonObj) (k : String) :
    normalizeObj (camelStep o k) = camelStep (normalizeObj o) k := by
  by_cases hcond : (startsUpper k && o.hasKey k) = true
  · have hcond' := hcond
    rw [Bool.and_eq_true] at hcond'
    obtain ⟨hu, hh⟩ := hcond'
    obtain ⟨v, hv⟩ := JsonObj.lookup_some_of_hasKey o k hh
    rw [camelStep_active o k v hu hv,
      camelStep_active (normalizeObj o) k (normalize v) hu
        (by rw [lookupKey_normalizeObj o k, hv]; rfl),
      delKey_normalizeObj, setKey_normalizeObj]
  · have hcf : (startsUpper k && o.hasKey k) = false := by
      revert hcond
      cases (startsUpper k && JsonObj.hasKey o k) <;> simp
    rw [camelStep_inactive o k hcf,
      camelStep_inactive (normalizeObj o) k (by rw [hasKey_normalizeObj o k]; exact hcf)]

theorem foldl_camelStep_normalizeObj (ks : List String) :
    ∀ o : JsonObj, normalizeObj (ks.foldl camelStep o) = ks.foldl camelStep (normalizeObj o) := by
  induction ks with
  | nil => intro o; rfl
  | cons k ks ih =>
    intro o
    rw [List.foldl_cons, List.foldl_cons, ih, camelStep_normalizeObj]

theorem normalizeObj_camelizeObj (o : JsonObj) :
    normalizeObj (camelizeObj o) = camelizeObj (normalizeObj o) := by
  unfold camelizeObj
  rw [foldl_camelStep_normalizeObj, keys_normalizeObj]

mutual

theorem normalize_idem : (j : Json) → normalize (normalize j) = normalize j
  | .null => rfl
  | .bool _ => rfl
  | .num _ => rfl
  | .str _ => rfl
  | .arr a => by
    simp only [normalize]
    rw [normalizeArr_idem a]
  | .obj o => by
    simp only [normalize]
    rw [normalizeObj_camelizeObj, normalizeObj_idem o, camelizeObj_idem]

theorem normalizeArr_idem : (a : JsonArr) → normalizeArr (normalizeArr a) = normalizeArr a
  | .nil => rfl
  | .cons h t => by
    simp only [normalizeArr]
    rw [normalize_idem h, normalizeArr_idem t]

theorem normalizeObj_idem : (o : JsonObj) → normalizeObj (normalizeObj o) = normalizeObj o
  | .nil => rfl
  | .cons k v t => by
    simp only [normalizeObj]
    rw [normalize_idem v, normalizeObj_idem t]

end

theorem foldl_keys_sub : ∀ (ks S : List String) (o : JsonObj),
    (∀ k ∈ ks, k ∈ S) →
    (∀ k ∈ o.keys, (∃ k0 ∈ S, k = camelKey k0) ∨ (startsUpper k = true ∧ k ∈ ks)) →
    ∀ k ∈ (ks.foldl camelStep o).keys, ∃ k0 ∈ S, k = camelKey k0 := by
  intro ks
  induction ks with
  | nil =>
    intro S o _ hinv k hk
    rcases hinv k hk with h | ⟨_, hmem⟩
    · exact h
    · exact absurd hmem (List.not_mem_nil k)
  | cons kh ks ih =>
    intro S o hks hinv k hk
    rw [List.foldl_cons] at hk
    refine ih S (camelStep o kh) (fun k' hk' => hks k' (List.mem_cons_of_mem kh hk')) ?_ k hk
    intro k' hk'
    by_cases hcond : (startsUpper kh && o.hasKey kh) = true
    · have hcond' := hcond
      rw [Bool.and_eq_true] at hcond'
      obtain ⟨hu0, hh0⟩ := hcond'
      obtain ⟨v, hv⟩ := JsonObj.lookup_some_of_hasKey o kh hh0
      rw [camelStep_active o kh v hu0 hv] at hk'
      obtain ⟨hsk, hne⟩ := (JsonObj.mem_keys_delKey _ kh k').mp hk'
      rcases (JsonObj.mem_keys_setKey o (lowerFirst kh) k' v).mp hsk with hmem | rfl
      · rcases hinv k' hmem with h | ⟨hu', hmem'⟩
        · exact Or.inl h
        · rcases List.mem_cons.mp hmem' with rfl | hks'
          · exact absurd rfl hne
          · exact Or.inr ⟨hu', hks'⟩
      · exact Or.inl ⟨kh, hks kh (List.mem_cons_self kh ks), by simp [camelKey, hu0]⟩
    · have hcf : (startsUpper kh && o.hasKey kh) = false := by
        revert hcond
        cases (startsUpper kh && JsonObj.hasKey o kh) <;> simp
      rw [camelStep_inactive o kh hcf] at hk'
      rcases hinv k' hk' with h | ⟨hu', hmem'⟩
      · exact Or.inl h
      · rcases List.mem_cons.mp hmem' with rfl | hks'
        · have hT : (startsUpper k' && o.hasKey k') = true := by
            rw [hu', (JsonObj.hasKey_iff_mem_keys o k').mpr hk']
            rfl
          simp [hT] at hcf
        · exact Or.inr ⟨hu', hks'⟩

theorem foldl_keys_covers : ∀ (ks S : List String) (o : JsonObj),
    (∀ k0 ∈ S, camelKey k0 ∈ o.keys ∨ (startsUpper k0 = true ∧ k0 ∈ ks ∧ k0 ∈ o.keys)) →
    ∀ k0 ∈ S, camelKey k0 ∈ (ks.foldl camelStep o).keys := by
  intro ks
  induction ks with
  | nil =>
    intro S o hinv k0 h0
    rcases hinv k0 h0 with h | ⟨_, hmem, _⟩
    · exact h
    · exact absurd hmem (List.not_mem_nil k0)
  | cons kh ks ih =>
    intro S o hinv k0 h0
    rw [List.foldl_cons]
    refine ih S (camelStep o kh) ?_ k0 h0
    intro k1 h1
    rcases hinv k1 h1 with h | ⟨hu1, hmem1, hpres1⟩
    · exact Or.inl (mem_keys_camelStep_of_lower o kh (camelKey k1) (startsUpper_camelKey k1) h)
    · by_cases he : k1 = kh
      · subst he
        left
        have hh : o.hasKey k1 = true := (JsonObj.hasKey_iff_mem_keys o k1).mpr hpres1
        obtain ⟨v, hv⟩ := JsonObj.lookup_some_of_hasKey o k1 hh
        rw [camelStep_active o k1 v hu1 hv]
        refine (JsonObj.mem_keys_delKey _ k1 (camelKey k1)).mpr ⟨?_, ?_⟩
        · exact (JsonObj.mem_keys_setKey o (lowerFirst k1) (camelKey k1) v).mpr
            (Or.inr (by simp [camelKey, hu1]))
        · intro hEq
          have hcc := startsUpper_camelKey k1
          rw [hEq, hu1] at hcc
          exact Bool.noConfusion hcc
      · refine Or.inr ⟨hu1, ?_, ?_⟩
        · rcases List.mem_cons.mp hmem1 with rfl | h'
          · exact absurd rfl he
          · exact h'
        · by_cases hcond : (startsUpper kh && o.hasKey kh) = true
          · have hcond' := hcond
            rw [Bool.and_eq_true] at hcond'
            obtain ⟨hu0, hh0⟩ := hcond'
            obtain ⟨v, hv⟩ := JsonObj.lookup_some_of_hasKey o kh hh0
            rw [camelStep_active o kh v hu0 hv]
            exact (JsonObj.mem_keys_delKey _ kh k1).mpr
              ⟨(JsonObj.mem_keys_setKey o (lowerFirst kh) k1 v).mpr (Or.inl hpres1), he⟩
          · have hcf : (startsUpper kh && o.hasKey kh) = false := by
              revert hcond
              cases (startsUpper kh && JsonObj.hasKey o kh) <;> simp
            rw [camelStep_inactive o kh hcf]
            exact hpres1

theorem mem_keys_camelizeObj (o : JsonObj) (k : String) :
    k ∈ (camelizeObj o).keys ↔ ∃ k0 ∈ o.keys, k = camelKey k0 := by
  constructor
  · intro hk
    refine foldl_keys_sub o.keys o.keys o (fun _ h => h) ?_ k hk
    intro k' hk'
    cases hu : startsUpper k'
    · exact Or.inl ⟨k', hk', by simp [camelKey, hu]⟩
    · exact Or.inr ⟨rfl, hk'⟩
  · rintro ⟨k0, h0, rfl⟩
    refine foldl_keys_covers o.keys o.keys o ?_ k0 h0
    intro k1 h1
    cases hu : startsUpper k1
    · exact Or.inl (by simp only [camelKey, hu, Bool.false_eq_true, if_false]; exact h1)
    · exact Or.inr ⟨rfl, h1, h1⟩

theorem arrLength_normalizeArr : (a : JsonArr) → arrLength (normalizeArr a) = arrLength a
  | .nil => rfl
  | .cons h t => by
    simp only [normalizeArr, arrLength]
    rw [arrLength_normalizeArr t]

/-- C5: the JSON key-casing normalization applied through `jsonParse` is
idempotent; the key set after normalizing an object is exactly the image
of its keys under "lowercase the leading character of a key starting
with an uppercase letter, keep every other key" (so keys not starting
with an uppercase letter are skipped: an object with no such keys is
left untouched); and arrays keep their structural shape, their elements
being normalized pointwise. -/
theorem claim_C5_camel_normalization_idempotent :
    (∀ j : Json, normalize (normalize j) = normalize j)
    ∧ (∀ (o : JsonObj) (k : String),
        k ∈ (camelizeObj o).keys ↔ ∃ k0 ∈ o.keys, k = camelKey k0)
    ∧ (∀ k : String, startsUpper k = true → camelKey k = lowerFirst k)
    ∧ (∀ k : String, startsUpper k = false → camelKey k = k)
    ∧ (∀ o : JsonObj, (∀ k ∈ o.keys, startsUpper k = false) → camelizeObj o = o)
    ∧ (∀ a : JsonArr, normalize (.arr a) = .arr (normalizeArr a))
    ∧ (∀ a : JsonArr, arrLength (normalizeArr a) = arrLength a) :=
  ⟨normalize_idem,
   mem_keys_camelizeObj,
   fun k h => by simp [camelKey, h],
   fun k h => by simp [camelKey, h],
   camelizeObj_id_of_no_upper,
   fun _ => rfl,
   arrLength_normalizeArr⟩

theorem claim_C5_camel_normalization_idempotent_witness :
    camelKey "Name" = lowerFirst "Name"
    ∧ camelKey "name" = "name"
    ∧ camelizeObj (JsonObj.cons "name" .null .nil) = JsonObj.cons "name" .null .nil :=
  ⟨claim_C5_camel_normalization_idempotent.2.2.1 "Name" (by decide),
   claim_C5_camel_normalization_idempotent.2.2.2.1 "name" (by decide),
   claim_C5_camel_normalization_idempotent.2.2.2.2.1 (JsonObj.cons "name" .null .nil)
     (by intro k hk; simp [JsonObj.keys] at hk; subst hk; decide)⟩

/-! ## Resource address translator
Embedding of `getResourceFromWebUrl` (magnusTreeDataProvider.ts lines
302-322) and `getWebUrlFromResource` (lines 332-344) over
character-level strings.  The external `vscode.Uri` parse/format pair is
modelled component-wise (scheme, authority, path, query, fragment, with
the scheme lowercased on parse and the query/fragment omitted when
empty); its percent-encoding and authority case normalization are
abstracted away. -/

/-- Character strings, the level at which the URI translator works. -/
abbrev Str := List Char

/-- The scheme separator "://". -/
def schemeSep : Str := [':', '/', '/']

/-- Splits at the first occurrence of "://": scheme on the left, the
remainder on the right; `none` when the string has no separator. -/
def splitScheme : Str → Option (Str × Str)
  | [] => none
  | c :: t =>
    if c = ':' ∧ t.take 2 = ['/', '/'] then some ([], t.drop 2)
    else (splitScheme t).map (fun q => (c :: q.1, q.2))

/-- Characters that terminate the authority component. -/
def authEnd (c : Char) : Bool := (c == '/') || (c == '?') || (c == '#')

/-- Characters that terminate the path component. -/
def pathEnd (c : Char) : Bool := (c == '?') || (c == '#')

/-- Splits path, query and fragment from the part after the authority:
the path runs to the first '?' or '#', a query introduced by '?' runs to
the first '#', and everything after the first '#' is the fragment. -/
def splitPQF (l : Str) : Str × Str × Str :=
  match l.dropWhile (fun c => !pathEnd c) with
  | [] => (l.takeWhile (fun c => !pathEnd c), [], [])
  | c :: t =>
    if c = '?' then
      (l.takeWhile (fun c => !pathEnd c), t.takeWhile (fun c => !(c == '#')),
       match t.dropWhile (fun c => !(c == '#')) with
       | [] => []
       | _ :: f => f)
    else if c = '#' then (l.takeWhile (fun c => !pathEnd c), [], t)
    else (l.takeWhile (fun c => !pathEnd c), [], [])

/-- The components of a parsed URI. -/
structure UriParts where
  scheme : Str
  authority : Str
  path : Str
  query : Str
  fragment : Str
deriving DecidableEq

/-- ASCII lowercasing of a string (`toLowerCase` on the inputs that
occur here). -/
def lowerStr (s : Str) : Str := s.map Char.toLower

/-- Component-wise model of `vscode.Uri.parse`: the scheme is the part
before the first "://" (lowercased), the authority runs to the first of
'/', '?' or '#', then path, query and fragment are split. -/
def uriParse (s : Str) : UriParts :=
  match splitScheme s with
  | none =>
    ⟨[], [], (splitPQF s).1, (splitPQF s).2.1, (splitPQF s).2.2⟩
  | some (sch, rest) =>
    ⟨lowerStr sch,
     rest.takeWhile (fun c => !authEnd c),
     (splitPQF (rest.dropWhile (fun c => !authEnd c))).1,
     (splitPQF (rest.dropWhile (fun c => !authEnd c))).2.1,
     (splitPQF (rest.dropWhile (fun c => !authEnd c))).2.2⟩

/-- Component-wise model of `vscode.Uri.from(...).toString()`: query and
fragment are included only when non-empty. -/
def uriToString (u : UriParts) : Str :=
  u.scheme ++ (schemeSep ++ (u.authority ++ (u.path
    ++ ((if u.query = [] then [] else '?' :: u.query)
      ++ (if u.fragment = [] then [] else '#' :: u.fragment)))))

/-- The insecure custom scheme (magnusTreeDataProvider.ts line 8). -/
def customUriSchemeInsecure : Str := "ttmagnus".data

/-- The secure custom scheme (magnusTreeDataProvider.ts line 9). -/
def customUriSchemeSecure : Str := "ttmagnuss".data

/-- The resource-API prefix in the case used by the lowercased
comparison of `getResourceFromWebUrl` (23 characters). -/
def apiPreLower : Str := "/api/triumphtech/magnus".data

/-- The resource-API prefix in the case used when composing web URLs. -/
def apiPreCased : Str := "/api/TriumphTech/Magnus".data

/-- `getResourceFromWebUrl` (magnusTreeDataProvider.ts lines 302-322):
chooses the secure or insecure custom scheme from the server URL's
scheme; a missing descriptor path yields a placeholder resource from
`randomUUID` (passed in as `uuid`); a path carrying "://" is parsed
as-is; a path starting (case-insensitively) with the resource-API prefix
is appended with that prefix stripped (`url.substring(23)`); any other
path is appended as-is to the custom scheme and authority. -/
def getResourceFromWebUrl (serverUrl : Str) (url : Option Str) (uuid : Str) : UriParts :=
  let serverUri := uriParse serverUrl
  let scheme := if lowerStr serverUri.scheme = "https".data
                then customUriSchemeSecure else customUriSchemeInsecure
  match url with
  | none => uriParse (scheme ++ (schemeSep ++ (serverUri.authority ++ ('/' :: uuid))))
  | some u =>
    if hasSchemeSep u then uriParse u
    else if apiPreLower.isPrefixOf (lowerStr u) then
      uriParse (scheme ++ (schemeSep ++ (serverUri.authority ++ u.drop 23)))
    else
      uriParse (scheme ++ (schemeSep ++ (serverUri.authority ++ u)))

/-- `getWebUrlFromResource` (magnusTreeDataProvider.ts lines 332-344):
rejects any scheme other than the two custom ones with the "Unexpected
scheme." error; otherwise rebuilds an http/https URL with the
resource-API prefix put back in front of the path, preserving query and
fragment. -/
def getWebUrlFromResource (u : UriParts) : Except Str Str :=
  if u.scheme ≠ customUriSchemeInsecure ∧ u.scheme ≠ customUriSchemeSecure then
    .error "Unexpected scheme.".data
  else
    .ok (uriToString
      ⟨(if u.scheme = customUriSchemeSecure then "https" else "http").data,
       u.authority, apiPreCased ++ u.path, u.query, u.fragment⟩)

/-- Stripping the resource-API prefix convention from a full URL: when
the part after the authority starts (case-insensitively) with the
prefix, those 23 characters are removed. -/
def stripApiUrl (s : Str) : Str :=
  match splitScheme s with
  | none => s
  | some (sch, rest) =>
    if apiPreLower.isPrefixOf (lowerStr (rest.dropWhile (fun c => !authEnd c))) then
      sch ++ (schemeSep ++ (rest.takeWhile (fun c => !authEnd c)
        ++ (rest.dropWhile (fun c => !authEnd c)).drop 23))
    else s

/-- Stripping the resource-API prefix convention from a descriptor
path. -/
def stripApiPath (p : Str) : Str :=
  if apiPreLower.isPrefixOf (lowerStr p) then p.drop 23 else p

theorem splitScheme_append : ∀ (sch t : Str), ':' ∉ sch →
    splitScheme (sch ++ (schemeSep ++ t)) = some (sch, t)
  | [], t => by
    intro _
    show splitScheme (':' :: '/' :: '/' :: t) = some ([], t)
    unfold splitScheme
    rw [if_pos ⟨rfl, rfl⟩]
    rfl
  | c :: sch', t => by
    intro h
    have hc : c ≠ ':' := fun hh => h (hh ▸ List.mem_cons_self c sch')
    have h' : ':' ∉ sch' := fun hh => h (List.mem_cons_of_mem c hh)
    show splitScheme (c :: (sch' ++ (schemeSep ++ t))) = _
    unfold splitScheme
    rw [if_neg (fun hand => hc hand.1), splitScheme_append sch' t h']
    rfl

theorem takeWhile_append_all (q : Char → Bool) : ∀ (a b : Str), (∀ c ∈ a, q c = true) →
    (a ++ b).takeWhile q = a ++ b.takeWhile q
  | [], b => by
    intro _
    rfl
  | c :: a', b => by
    intro h
    show ((c :: (a' ++ b)).takeWhile q) = _
    rw [List.takeWhile_cons]
    simp only [h c (List.mem_cons_self c a'), if_true]
    rw [takeWhile_append_all q a' b (fun x hx => h x (List.mem_cons_of_mem c hx))]
    rfl

theorem dropWhile_append_all (q : Char → Bool) : ∀ (a b : Str), (∀ c ∈ a, q c = true) →
    (a ++ b).dropWhile q = b.dropWhile q
  | [], b => by
    intro _
    rfl
  | c :: a', b => by
    intro h
    show ((c :: (a' ++ b)).dropWhile q) = _
    rw [List.dropWhile_cons]
    simp only [h c (List.mem_cons_self c a'), if_true]
    exact dropWhile_append_all q a' b (fun x hx => h x (List.mem_cons_of_mem c hx))

theorem takeWhile_all (q : Char → Bool) (l : Str) (h : ∀ c ∈ l, q c = true) :
    l.takeWhile q = l := by
  have h0 := takeWhile_append_all q l [] h
  simpa using h0

theorem dropWhile_all (q : Char → Bool) (l : Str) (h : ∀ c ∈ l, q c = true) :
    l.dropWhile q = [] := by
  have h0 := dropWhile_append_all q l [] h
  simpa using h0

theorem takeWhile_cons_false (q : Char → Bool) (c : Char) (t : Str) (h : q c = false) :
    (c :: t).takeWhile q = [] := by
  rw [List.takeWhile_cons, h]
  rfl

theorem dropWhile_cons_false (q : Char → Bool) (c : Char) (t : Str) (h : q c = false) :
    (c :: t).dropWhile q = c :: t := by
  rw [List.dropWhile_cons, h]
  rfl

theorem mem_takeWhile_pred (q : Char → Bool) : ∀ (l : Str) (c : Char),
    c ∈ l.takeWhile q → q c = true
  | [], c => by
    intro h
    simp at h
  | x :: t, c => by
    intro h
    by_cases hx : q x = true
    · rw [List.takeWhile_cons, hx] at h
      simp only [if_true] at h
      rcases List.mem_cons.mp h with rfl | h'
      · exact hx
      · exact mem_takeWhile_pred q t c h'
    · have hx' : q x = false := by
        cases hqx : q x
        · rfl
        · exact absurd hqx hx
      rw [takeWhile_cons_false q x t hx'] at h
      simp at h

theorem dropWhile_head_false (q : Char → Bool) : ∀ (l : Str) (c : Char) (t : Str),
    l.dropWhile q = c :: t → q c = false
  | [], c, t => by
    intro h
    simp at h
  | x :: xs, c, t => by
    intro h
    rw [List.dropWhile_cons] at h
    split_ifs at h with hx
    · exact dropWhile_head_false q xs c t h
    · injection h with h1 _
      subst h1
      cases hqx : q x
      · rfl
      · exact absurd hqx hx

theorem isPrefixOf_append_self : ∀ (a b : Str), a.isPrefixOf (a ++ b) = true
  | [], _ => by simp [List.isPrefixOf]
  | c :: a', b => by
    show (c :: a').isPrefixOf (c :: (a' ++ b)) = true
    simp [List.isPrefixOf, isPrefixOf_append_self a' b]

theorem lowerStr_apiPreCased : lowerStr apiPreCased = apiPreLower := by decide

theorem splitPQF_path_parts (l : Str) :
    (splitPQF l).1 = l.takeWhile (fun c => !pathEnd c) := by
  unfold splitPQF
  split
  · rfl
  · split_ifs <;> rfl

theorem splitPQF_query_no_hash (l : Str) : '#' ∉ (splitPQF l).2.1 := by
  unfold splitPQF
  split
  · simp
  · split_ifs
    · intro h
      have := mem_takeWhile_pred _ _ '#' h
      simp at this
    · simp
    · simp

theorem splitPQF_path_no_pathEnd (l : Str) : ∀ c ∈ (splitPQF l).1, pathEnd c = false := by
  rw [splitPQF_path_parts]
  intro c hc
  have := mem_takeWhile_pred _ l c hc
  simpa using this

theorem splitPQF_drop_nil (l : Str) (h : l.dropWhile (fun c => !pathEnd c) = []) :
    splitPQF l = (l.takeWhile (fun c => !pathEnd c), [], []) := by
  unfold splitPQF
  rw [h]

theorem splitPQF_drop_hash (l t : Str) (h : l.dropWhile (fun c => !pathEnd c) = '#' :: t) :
    splitPQF l = (l.takeWhile (fun c => !pathEnd c), [], t) := by
  unfold splitPQF
  rw [h]
  simp

theorem splitPQF_drop_quest (l t : Str) (h : l.dropWhile (fun c => !pathEnd c) = '?' :: t) :
    splitPQF l = (l.takeWhile (fun c => !pathEnd c),
      t.takeWhile (fun c => !(c == '#')),
      match t.dropWhile (fun c => !(c == '#')) with
      | [] => []
      | _ :: f => f) := by
  unfold splitPQF
  rw [h]
  simp

theorem splitPQF_reassemble (p1 q1 f1 : Str)
    (hp : ∀ c ∈ p1, pathEnd c = false)
    (hq : '#' ∉ q1) :
    splitPQF (p1 ++ ((if q1 = [] then [] else '?' :: q1)
      ++ (if f1 = [] then [] else '#' :: f1))) = (p1, q1, f1) := by
  have hp' : ∀ c ∈ p1, (fun c => !pathEnd c) c = true := fun c hc => by simp [hp c hc]
  have hq' : ∀ c ∈ q1, (fun c => !(c == '#')) c = true := by
    intro c hc
    simp only [Bool.not_eq_true']
    cases hb : (c == '#')
    · rfl
    · exact absurd (by rwa [beq_iff_eq] at hb : c = '#') (fun hh => hq (hh ▸ hc))
  by_cases hq1 : q1 = []
  · by_cases hf1 : f1 = []
    · rw [if_pos hq1, if_pos hf1, List.nil_append, List.append_nil]
      rw [splitPQF_drop_nil p1 (dropWhile_all _ p1 hp'), takeWhile_all _ p1 hp', hq1, hf1]
    · rw [if_pos hq1, if_neg hf1, List.nil_append]
      have hd : (p1 ++ '#' :: f1).dropWhile (fun c => !pathEnd c) = '#' :: f1 := by
        rw [dropWhile_append_all _ p1 _ hp']
        exact dropWhile_cons_false _ '#' f1 (by decide)
      rw [splitPQF_drop_hash _ _ hd, takeWhile_append_all _ p1 _ hp',
        takeWhile_cons_false _ '#' f1 (by decide), List.append_nil, hq1]
  · by_cases hf1 : f1 = []
    · rw [if_neg hq1, if_pos hf1, List.append_nil]
      have hd : (p1 ++ '?' :: q1).dropWhile (fun c => !pathEnd c) = '?' :: q1 := by
        rw [dropWhile_append_all _ p1 _ hp']
        exact dropWhile_cons_false _ '?' q1 (by decide)
      rw [splitPQF_drop_quest _ _ hd, takeWhile_append_all _ p1 _ hp',
        takeWhile_cons_false _ '?' q1 (by decide), List.append_nil,
        takeWhile_all _ q1 hq', dropWhile_all _ q1 hq', hf1]
    · rw [if_neg hq1, if_neg hf1]
      rw [show ('?' :: q1) ++ '#' :: f1 = '?' :: (q1 ++ '#' :: f1) from rfl]
      have hd : (p1 ++ '?' :: (q1 ++ '#' :: f1)).dropWhile (fun c => !pathEnd c)
          = '?' :: (q1 ++ '#' :: f1) := by
        rw [dropWhile_append_all _ p1 _ hp']
        exact dropWhile_cons_false _ '?' (q1 ++ '#' :: f1) (by decide)
      rw [splitPQF_drop_quest _ _ hd, takeWhile_append_all _ p1 _ hp',
        takeWhile_cons_false _ '?' (q1 ++ '#' :: f1) (by decide), List.append_nil,
        takeWhile_append_all _ q1 _ hq', takeWhile_cons_false _ '#' f1 (by decide),
        List.append_nil, dropWhile_append_all _ q1 _ hq',
        dropWhile_cons_false _ '#' f1 (by decide)]

theorem uriParse_concat (sch auth rest : Str) (hsch : ':' ∉ sch)
    (hauth : ∀ c ∈ auth, authEnd c = false) :
    uriParse (sch ++ (schemeSep ++ (auth ++ rest)))
      = ⟨lowerStr sch,
         auth ++ rest.takeWhile (fun c => !authEnd c),
         (splitPQF (rest.dropWhile (fun c => !authEnd c))).1,
         (splitPQF (rest.dropWhile (fun c => !authEnd c))).2.1,
         (splitPQF (rest.dropWhile (fun c => !authEnd c))).2.2⟩ := by
  have hauth' : ∀ c ∈ auth, (fun c => !authEnd c) c = true := fun c hc => by
    simp [hauth c hc]
  unfold uriParse
  rw [splitScheme_append sch (auth ++ rest) hsch]
  simp only []
  rw [takeWhile_append_all _ auth rest hauth', dropWhile_append_all _ auth rest hauth']

theorem splitPQF_after_authDrop (p' : Str) :
    (splitPQF (p'.dropWhile (fun c => !authEnd c))).1 = []
    ∨ ∃ t, (splitPQF (p'.dropWhile (fun c => !authEnd c))).1 = '/' :: t := by
  rcases htail : p'.dropWhile (fun c => !authEnd c) with _ | ⟨c, t⟩
  · left
    rw [splitPQF_path_parts]
    rfl
  · have hc : (fun c => !authEnd c) c = false := dropWhile_head_false _ p' c t htail
    have hce : authEnd c = true := by simpa using hc
    rw [splitPQF_path_parts]
    by_cases hqm : c = '?'
    · left
      subst hqm
      rw [takeWhile_cons_false _ _ _ (by decide)]
    · by_cases hhm : c = '#'
      · left
        subst hhm
        rw [takeWhile_cons_false _ _ _ (by decide)]
      · have hcs : c = '/' := by
          simpa [authEnd, hqm, hhm] using hce
        subst hcs
        right
        refine ⟨t.takeWhile (fun c => !pathEnd c), ?_⟩
        rw [List.takeWhile_cons]
        rfl

theorem authSpan_stops (P1 Q1 F1 : Str) (hP : P1 = [] ∨ ∃ t, P1 = '/' :: t) :
    (P1 ++ ((if Q1 = [] then [] else '?' :: Q1)
        ++ (if F1 = [] then [] else '#' :: F1))).takeWhile (fun c => !authEnd c) = []
    ∧ (P1 ++ ((if Q1 = [] then [] else '?' :: Q1)
        ++ (if F1 = [] then [] else '#' :: F1))).dropWhile (fun c => !authEnd c)
      = P1 ++ ((if Q1 = [] then [] else '?' :: Q1)
        ++ (if F1 = [] then [] else '#' :: F1)) := by
  rcases hP with rfl | ⟨t, rfl⟩
  · by_cases hq : Q1 = []
    · by_cases hf : F1 = []
      · subst hq
        subst hf
        simp
      · subst hq
        simp only [if_pos rfl, if_neg hf, List.nil_append]
        exact ⟨takeWhile_cons_false _ '#' F1 (by decide),
          dropWhile_cons_false _ '#' F1 (by decide)⟩
    · simp only [if_neg hq, List.nil_append]
      constructor
      · rw [show ('?' :: Q1) ++ (if F1 = [] then [] else '#' :: F1)
            = '?' :: (Q1 ++ (if F1 = [] then [] else '#' :: F1)) from rfl]
        exact takeWhile_cons_false _ '?' _ (by decide)
      · rw [show ('?' :: Q1) ++ (if F1 = [] then [] else '#' :: F1)
            = '?' :: (Q1 ++ (if F1 = [] then [] else '#' :: F1)) from rfl]
        exact dropWhile_cons_false _ '?' _ (by decide)
  · constructor
    · rw [show ('/' :: t) ++ ((if Q1 = [] then [] else '?' :: Q1)
          ++ (if F1 = [] then [] else '#' :: F1))
          = '/' :: (t ++ ((if Q1 = [] then [] else '?' :: Q1)
            ++ (if F1 = [] then [] else '#' :: F1))) from rfl]
      exact takeWhile_cons_false _ '/' _ (by decide)
    · rw [show ('/' :: t) ++ ((if Q1 = [] then [] else '?' :: Q1)
          ++ (if F1 = [] then [] else '#' :: F1))
          = '/' :: (t ++ ((if Q1 = [] then [] else '?' :: Q1)
            ++ (if F1 = [] then [] else '#' :: F1))) from rfl]
      exact dropWhile_cons_false _ '/' _ (by decide)

theorem stripApiUrl_uriToString (web A1 P1 Q1 F1 : Str)
    (hweb : ':' ∉ web)
    (hA1 : ∀ c ∈ A1, authEnd c = false) :
    stripApiUrl (uriToString ⟨web, A1, apiPreCased ++ P1, Q1, F1⟩)
      = web ++ (schemeSep ++ (A1 ++ (P1 ++ ((if Q1 = [] then [] else '?' :: Q1)
          ++ (if F1 = [] then [] else '#' :: F1))))) := by
  have hA1' : ∀ c ∈ A1, (fun c => !authEnd c) c = true := fun c hc => by simp [hA1 c hc]
  have hshape : (apiPreCased ++ P1) ++ ((if Q1 = [] then [] else '?' :: Q1)
      ++ (if F1 = [] then [] else '#' :: F1))
      = '/' :: (("api/TriumphTech/Magnus".data ++ P1) ++ ((if Q1 = [] then [] else '?' :: Q1)
          ++ (if F1 = [] then [] else '#' :: F1))) := rfl
  have hdrop : (A1 ++ ((apiPreCased ++ P1) ++ ((if Q1 = [] then [] else '?' :: Q1)
      ++ (if F1 = [] then [] else '#' :: F1)))).dropWhile (fun c => !authEnd c)
      = (apiPreCased ++ P1) ++ ((if Q1 = [] then [] else '?' :: Q1)
        ++ (if F1 = [] then [] else '#' :: F1)) := by
    rw [dropWhile_append_all _ A1 _ hA1', hshape,
      dropWhile_cons_false _ '/' _ (by decide)]
  have htake : (A1 ++ ((apiPreCased ++ P1) ++ ((if Q1 = [] then [] else '?' :: Q1)
      ++ (if F1 = [] then [] else '#' :: F1)))).takeWhile (fun c => !authEnd c) = A1 := by
    rw [takeWhile_append_all _ A1 _ hA1', hshape,
      takeWhile_cons_false _ '/' _ (by decide), List.append_nil]
  have hlow : lowerStr ((apiPreCased ++ P1) ++ ((if Q1 = [] then [] else '?' :: Q1)
      ++ (if F1 = [] then [] else '#' :: F1)))
      = apiPreLower ++ lowerStr (P1 ++ ((if Q1 = [] then [] else '?' :: Q1)
          ++ (if F1 = [] then [] else '#' :: F1))) := by
    rw [List.append_assoc]
    unfold lowerStr
    rw [List.map_append,
      show List.map Char.toLower apiPreCased = apiPreLower from lowerStr_apiPreCased]
  have hpre : apiPreLower.isPrefixOf (lowerStr ((apiPreCased ++ P1)
      ++ ((if Q1 = [] then [] else '?' :: Q1)
        ++ (if F1 = [] then [] else '#' :: F1)))) = true := by
    rw [hlow]
    exact isPrefixOf_append_self apiPreLower _
  have hdrop23 : ((apiPreCased ++ P1) ++ ((if Q1 = [] then [] else '?' :: Q1)
      ++ (if F1 = [] then [] else '#' :: F1))).drop 23
      = P1 ++ ((if Q1 = [] then [] else '?' :: Q1)
        ++ (if F1 = [] then [] else '#' :: F1)) := by
    rw [List.append_assoc, show (23 : Nat) = apiPreCased.length from rfl]
    exact List.drop_left apiPreCased _
  show stripApiUrl (web ++ (schemeSep ++ (A1 ++ ((apiPreCased ++ P1)
      ++ ((if Q1 = [] then [] else '?' :: Q1)
        ++ (if F1 = [] then [] else '#' :: F1)))))) = _
  unfold stripApiUrl
  rw [splitScheme_append web _ hweb]
  simp only []
  rw [hdrop, htake, hpre, if_pos rfl, hdrop23]

theorem roundtrip_core (web vs auth p uuid : Str)
    (hweb : ':' ∉ web) (hvs : ':' ∉ vs)
    (hvs_low : lowerStr vs = vs)
    (hsel : (if lowerStr (lowerStr web) = "https".data then customUriSchemeSecure
             else customUriSchemeInsecure) = vs)
    (hrec : ¬(vs ≠ customUriSchemeInsecure ∧ vs ≠ customUriSchemeSecure))
    (hback : ((if vs = customUriSchemeSecure then "https" else "http") : String).data = web)
    (hauth : ∀ c ∈ auth, authEnd c = false)
    (hp : hasSchemeSep p = false) :
    (getWebUrlFromResource (getResourceFromWebUrl (web ++ (schemeSep ++ auth))
        (some p) uuid)).map (fun u => uriParse (stripApiUrl u))
    = .ok (uriParse (web ++ (schemeSep ++ (auth ++ stripApiPath p)))) := by
  have hbase : uriParse (web ++ (schemeSep ++ auth)) = ⟨lowerStr web, auth, [], [], []⟩ := by
    have h0 := uriParse_concat web auth [] hweb hauth
    simpa using h0
  have hres : getResourceFromWebUrl (web ++ (schemeSep ++ auth)) (some p) uuid
      = uriParse (vs ++ (schemeSep ++ (auth ++ stripApiPath p))) := by
    unfold getResourceFromWebUrl stripApiPath
    rw [hbase]
    by_cases hpre : apiPreLower.isPrefixOf (lowerStr p) = true
    · simp [hp, hpre, hsel]
    · simp [hp, hpre, hsel]
  have hA1 : ∀ c ∈ auth ++ (stripApiPath p).takeWhile (fun c => !authEnd c),
      authEnd c = false := by
    intro c hc
    rcases List.mem_append.mp hc with h | h
    · exact hauth c h
    · have h2 := mem_takeWhile_pred _ (stripApiPath p) c h
      simpa using h2
  have hres2 : getResourceFromWebUrl (web ++ (schemeSep ++ auth)) (some p) uuid
      = ⟨vs, auth ++ (stripApiPath p).takeWhile (fun c => !authEnd c),
          (splitPQF ((stripApiPath p).dropWhile (fun c => !authEnd c))).1,
          (splitPQF ((stripApiPath p).dropWhile (fun c => !authEnd c))).2.1,
          (splitPQF ((stripApiPath p).dropWhile (fun c => !authEnd c))).2.2⟩ := by
    rw [hres, uriParse_concat vs auth (stripApiPath p) hvs hauth, hvs_low]
  rw [hres2]
  have hweb_eq : getWebUrlFromResource
      ⟨vs, auth ++ (stripApiPath p).takeWhile (fun c => !authEnd c),
        (splitPQF ((stripApiPath p).dropWhile (fun c => !authEnd c))).1,
        (splitPQF ((stripApiPath p).dropWhile (fun c => !authEnd c))).2.1,
        (splitPQF ((stripApiPath p).dropWhile (fun c => !authEnd c))).2.2⟩
      = .ok (uriToString ⟨web, auth ++ (stripApiPath p).takeWhile (fun c => !authEnd c),
          apiPreCased ++ (splitPQF ((stripApiPath p).dropWhile (fun c => !authEnd c))).1,
          (splitPQF ((stripApiPath p).dropWhile (fun c => !authEnd c))).2.1,
          (splitPQF ((stripApiPath p).dropWhile (fun c => !authEnd c))).2.2⟩) := by
    unfold getWebUrlFromResource
    rw [if_neg hrec]
    simp only [hback]
  rw [hweb_eq]
  show Except.ok (uriParse (stripApiUrl (uriToString
      ⟨web, auth ++ (stripApiPath p).takeWhile (fun c => !authEnd c),
        apiPreCased ++ (splitPQF ((stripApiPath p).dropWhile (fun c => !authEnd c))).1,
        (splitPQF ((stripApiPath p).dropWhile (fun c => !authEnd c))).2.1,
        (splitPQF ((stripApiPath p).dropWhile (fun c => !authEnd c))).2.2⟩))) = _
  rw [stripApiUrl_uriToString web _ _ _ _ hweb hA1]
  have hstops := authSpan_stops
    ((splitPQF ((stripApiPath p).dropWhile (fun c => !authEnd c))).1)
    ((splitPQF ((stripApiPath p).dropWhile (fun c => !authEnd c))).2.1)
    ((splitPQF ((stripApiPath p).dropWhile (fun c => !authEnd c))).2.2)
    (splitPQF_after_authDrop (stripApiPath p))
  have hre := splitPQF_reassemble
    ((splitPQF ((stripApiPath p).dropWhile (fun c => !authEnd c))).1)
    ((splitPQF ((stripApiPath p).dropWhile (fun c => !authEnd c))).2.1)
    ((splitPQF ((stripApiPath p).dropWhile (fun c => !authEnd c))).2.2)
    (splitPQF_path_no_pathEnd ((stripApiPath p).dropWhile (fun c => !authEnd c)))
    (splitPQF_query_no_hash ((stripApiPath p).dropWhile (fun c => !authEnd c)))
  rw [uriParse_concat web _ _ hweb hA1, uriParse_concat web auth (stripApiPath p) hweb hauth]
  rw [hstops.1, hstops.2, List.append_nil, hre]

/-- C1: for every server base URL (secure https or insecure http, with a
well-formed non-empty authority as the external URI library requires)
and every descriptor path that does not contain the absolute scheme
separator "://", translating the path to a virtual resource with
`getResourceFromWebUrl` and back with `getWebUrlFromResource` yields a
URL that, stripped of the resource-API prefix convention
"/api/TriumphTech/Magnus", parses to the same URI components -- query
and fragment included -- as the real URL formed from the server base and
the descriptor path (itself taken modulo the same prefix convention,
which the translation strips on the way in and restores on the way
out). -/
theorem claim_C1_address_roundtrip (secure : Bool) (auth p uuid : Str)
    (hAuthNe : auth ≠ [])
    (hauth : ∀ c ∈ auth, authEnd c = false)
    (hp : hasSchemeSep p = false) :
    (getWebUrlFromResource (getResourceFromWebUrl
        ((if secure then "https".data else "http".data) ++ (schemeSep ++ auth))
        (some p) uuid)).map (fun u => uriParse (stripApiUrl u))
    = .ok (uriParse ((if secure then "https".data else "http".data)
        ++ (schemeSep ++ (auth ++ stripApiPath p)))) := by
  cases secure
  · exact roundtrip_core "http".data customUriSchemeInsecure auth p uuid
      (by decide) (by decide) (by decide) (by decide) (by decide) (by decide) hauth hp
  · exact roundtrip_core "https".data customUriSchemeSecure auth p uuid
      (by decide) (by decide) (by decide) (by decide) (by decide) (by decide) hauth hp

theorem claim_C1_address_roundtrip_witness :
    (getWebUrlFromResource (getResourceFromWebUrl
        ("https".data ++ (schemeSep ++ "example.org".data))
        (some "/api/TriumphTech/Magnus/pages/5?x=1#frag".data) [])).map
      (fun u => uriParse (stripApiUrl u))
    = .ok (uriParse ("https".data ++ (schemeSep ++ ("example.org".data
        ++ stripApiPath "/api/TriumphTech/Magnus/pages/5?x=1#frag".data)))) :=
  claim_C1_address_roundtrip true "example.org".data
    "/api/TriumphTech/Magnus/pages/5?x=1#frag".data []
    (by decide) (by decide) (by decide)

/-- C4: every remote operation classifies its response uniformly:
HTTP 404 raises the "not found" error, 403 the "access denied" error, and
any other status outside [200,300) -- or an empty body on an operation
that requires one (all except `getFileStat`) -- raises the generic
"unexpected server response" error carrying the raw status and body that
the source logs. -/
theorem claim_C4_uniform_response_classification (render : α → String) (r : HttpResp α) :
    serverDescriptorRespError render r = uniformRespError true render r
    ∧ childItemsRespError render r = uniformRespError true render r
    ∧ fileStatRespError render r = uniformRespError false render r
    ∧ fileContentRespError render r = uniformRespError true render r
    ∧ updateFileContentRespError render r = uniformRespError true render r
    ∧ actionRespError render r = uniformRespError true render r :=
  ⟨serverDescriptor_classification_uniform render r,
   childItems_classification_uniform render r,
   fileStat_classification_uniform render r,
   fileContent_classification_uniform render r,
   updateFileContent_classification_uniform render r,
   action_classification_uniform render r⟩

end Magnus
